import Mathlib

/-!
Verification of the filter-policy dispatch and builder/reader contract layer
of `table/block_based/filter_policy_internal.h` (RocksDB block-based table
filter subsystem).

The header under `src/` gives the declarations: the `BloomFilterPolicy::Mode`
enum with its numeric values, the `BuiltinFilterBitsBuilder::CalculateSpace`
contract, the inline `FilterBuildingContext::GetBuilder`, and the
`GetFilterBitsReader` contract.  The method bodies other than
`FilterBuildingContext::GetBuilder` live in a `.cc` file that is not part of
`src/`; those operations are modelled from the specification, as marked in
each doc comment.
-/

namespace rocksdb

/-- Keys are byte strings (the `Slice` type of the source). -/
abbrev Key := List Nat

/-- Mode enum of `BloomFilterPolicy` (filter_policy_internal.h, lines 65-83). -/
inductive Mode where
  | kLegacyBloom
  | kDeprecatedBlock
  | kFastLocalBloom
  | kAuto
deriving DecidableEq, Repr

/-- Numeric values of the `Mode` enumerators, from the header
(`kLegacyBloom = 0`, `kDeprecatedBlock = 1`, `kFastLocalBloom = 2`,
`kAuto = 100`). -/
def Mode.value : Mode → Nat
  | .kLegacyBloom => 0
  | .kDeprecatedBlock => 1
  | .kFastLocalBloom => 2
  | .kAuto => 100

/-- Modelled from the spec: the concrete encodings (§4.4): a legacy encoding,
a deprecated block-scoped encoding, and a fast cache-local encoding, matching
the three fixed implementations in the header's `Mode` enum. -/
inductive Encoding where
  | legacyBloom
  | deprecatedBlock
  | fastLocalBloom
deriving DecidableEq, Repr

/-- Modelled from the spec: the fixed-width encoding marker embedded in every
serialized blob (§3, §6), permanently reserved per encoding.  The concrete
byte values are an arbitrary choice of the model; only their distinctness is
load-bearing. -/
def Encoding.marker : Encoding → Nat
  | .legacyBloom => 10
  | .deprecatedBlock => 11
  | .fastLocalBloom => 12

/-- Modelled from the spec: inverse of `Encoding.marker`, the exhaustive match
over known discriminants with an explicit unknown fallback (§9). -/
def Encoding.ofMarker (m : Nat) : Option Encoding :=
  if m = 10 then some .legacyBloom
  else if m = 11 then some .deprecatedBlock
  else if m = 12 then some .fastLocalBloom
  else none

/-- Modelled from the spec: each encoding's hashing strategy is a pluggable
detail (§1, §9 open question); the model distinguishes the encodings by a hash
seed so that bytes of different encodings genuinely differ. -/
def Encoding.seed : Encoding → Nat
  | .legacyBloom => 0
  | .deprecatedBlock => 1
  | .fastLocalBloom => 2

/-- Modelled from the spec: the format-version generation from which an
encoding's on-disk representation is understood (§4.5 step 2, glossary).  The
legacy and deprecated encodings predate versioning; the fast cache-local
encoding requires format version 5 (the value mirrors the RocksDB release
that introduced it, but only the ordering matters for the claims). -/
def Encoding.minFormatVersion : Encoding → Nat
  | .legacyBloom => 0
  | .deprecatedBlock => 0
  | .fastLocalBloom => 5

/-- Configuration of `BloomFilterPolicy` (header lines 122-127): bits per key
and the selected mode. -/
structure BloomFilterPolicy where
  bits_per_key : Nat
  mode : Mode
deriving DecidableEq, Repr

/-- Subset of `BlockBasedTableOptions` relevant to this layer: the optional
filter policy and the format version of the table. -/
structure BlockBasedTableOptions where
  filter_policy : Option BloomFilterPolicy
  format_version : Nat
deriving DecidableEq, Repr

/-- Context passed to `BloomFilterPolicy` at filter building time
(header lines 32-48). -/
structure FilterBuildingContext where
  table_options : BlockBasedTableOptions
deriving DecidableEq, Repr

/-! ### The reference concrete encoding (modelled from the spec)

The spec's implementation budget (§2) calls for "one reference concrete
encoding sufficient to exercise the contract", with the bit-level hashing
math explicitly out of scope (§1).  The model gives all three encodings the
same Bloom-style core, parameterised by the per-encoding hash seed, storing
a bit array followed by two metadata bytes: the probe count and the
encoding marker (trailing metadata, §6). -/

/-- Modelled from the spec: a concrete key hash (hashing math is out of
scope; any function works for the contract layer). -/
def keyHash (seed : Nat) (k : Key) : Nat :=
  k.foldl (fun h b => h * 131 + b + 1) (seed * 977 + 1)

/-- Modelled from the spec: a second hash for double hashing. -/
def keyHash2 (seed : Nat) (k : Key) : Nat :=
  k.foldl (fun h b => h * 137 + b + 1) (seed * 991 + 1)

/-- Modelled from the spec: position of probe `i` for key `k` in a filter of
`numBits` bits. -/
def probePos (seed : Nat) (k : Key) (i numBits : Nat) : Nat :=
  (keyHash seed k + i * keyHash2 seed k) % numBits

/-- Reads bit `pos` of a little-endian byte array. -/
def getBitInBytes (bytes : List Nat) (pos : Nat) : Bool :=
  (bytes.getD (pos / 8) 0).testBit (pos % 8)

/-- Sets bit `pos` of a little-endian byte array. -/
def setBitInBytes (bytes : List Nat) (pos : Nat) : List Nat :=
  bytes.set (pos / 8) ((bytes.getD (pos / 8) 0) ||| (1 <<< (pos % 8)))

/-- Modelled from the spec: add one key's filter contribution, setting its
`numProbes` probe bits. -/
def addKeyBits (seed numProbes numBits : Nat) (k : Key) (bytes : List Nat) :
    List Nat :=
  (List.range numProbes).foldl
    (fun bs i => setBitInBytes bs (probePos seed k i numBits)) bytes

/-- Modelled from the spec: the accumulated bit array for a list of keys. -/
def buildBits (seed numProbes numBits : Nat) (keys : List Key)
    (bytes : List Nat) : List Nat :=
  keys.foldl (fun bs k => addKeyBits seed numProbes numBits k bs) bytes

/-- Modelled from the spec: probe count derived from bits per key (the usual
`ln 2` factor, clamped to `[1, 30]`; the exact formula is encoding detail). -/
def numProbesFor (bits_per_key : Nat) : Nat :=
  min 30 (max 1 (bits_per_key * 69 / 100))

/-- Modelled from the spec: byte length of the bit array for `n` entries at
`bits_per_key` bits each (rounded up to whole bytes, at least one byte). -/
def filterByteLen (bits_per_key n : Nat) : Nat :=
  max 1 ((n * bits_per_key + 7) / 8)

/-- Length in bytes of the trailing metadata (probe count byte and encoding
marker byte). -/
def metadataLen : Nat := 2

/-- State of a `FilterBitsBuilder`: the concrete encoding it builds and the
policy's bits-per-key configuration. -/
structure FilterBitsBuilder where
  encoding : Encoding
  bits_per_key : Nat
deriving DecidableEq, Repr

/-- Modelled from the spec: `Finish()` serializes the keys fed to the builder
into an immutable byte blob: the Bloom bit array followed by the probe count
and the encoding marker (§4.2, §6). -/
def FilterBitsBuilder.Finish (b : FilterBitsBuilder) (keys : List Key) :
    List Nat :=
  buildBits b.encoding.seed (numProbesFor b.bits_per_key)
      (8 * filterByteLen b.bits_per_key keys.length) keys
      (List.replicate (filterByteLen b.bits_per_key keys.length) 0)
    ++ [numProbesFor b.bits_per_key, b.encoding.marker]

/-- Modelled from the spec: `BuiltinFilterBitsBuilder::CalculateSpace`
(header lines 24-30): bytes needed for a new filter with `num_entry` entries,
including metadata. -/
def FilterBitsBuilder.CalculateSpace (b : FilterBitsBuilder)
    (num_entry : Nat) : Nat :=
  filterByteLen b.bits_per_key num_entry + metadataLen

/-- Modelled from the spec: `CalculateNumEntry` (referenced by the header
comment on `CalculateSpace`, lines 26-28): entry count that fits in a filter
of `space` bytes including metadata. -/
def FilterBitsBuilder.CalculateNumEntry (b : FilterBitsBuilder)
    (space : Nat) : Nat :=
  ((space - metadataLen) * 8) / b.bits_per_key

/-- A `FilterBitsReader`: the concrete encoding it decodes as, over the
immutable blob. -/
structure FilterBitsReader where
  encoding : Encoding
  blob : List Nat
deriving DecidableEq, Repr

/-- Modelled from the spec: `MayMatch` of the reference encoding: reads the
probe count from the trailing metadata and checks every probe bit of the key
in the bit array (§4.3). -/
def FilterBitsReader.MayMatch (r : FilterBitsReader) (k : Key) : Bool :=
  (List.range (r.blob.getD (r.blob.length - metadataLen) 0)).all fun i =>
    getBitInBytes (r.blob.take (r.blob.length - metadataLen))
      (probePos r.encoding.seed k i (8 * (r.blob.length - metadataLen)))

/-- Reads the embedded encoding marker: the trailing metadata byte (§6). -/
def readMarker (blob : List Nat) : Option Nat := blob.getLast?

/-- Decode errors reported by `GetFilterBitsReader` (§7). -/
inductive DecodeError where
  | unrecognizedMarker
deriving DecidableEq, Repr

/-- Modelled from the spec: `BloomFilterPolicy::GetFilterBitsReader` (header
lines 108-112): reads the marker embedded in the bytes — never the policy's
own mode, the header noting that mode only varies `GetFilterBitsBuilder` —
and dispatches to the matching concrete reader, with a decode error on an
unrecognized marker (§4.5, §9). -/
def BloomFilterPolicy.GetFilterBitsReader (_p : BloomFilterPolicy)
    (contents : List Nat) : Except DecodeError FilterBitsReader :=
  match readMarker contents with
  | none => .error .unrecognizedMarker
  | some m =>
    match Encoding.ofMarker m with
    | none => .error .unrecognizedMarker
    | some e => .ok ⟨e, contents⟩

/-- Modelled from the spec: a reader built by software whose format-version
ceiling is `v` understands exactly the encodings whose on-disk representation
belongs to generation `v` or lower (§8 automatic-mode monotonicity,
glossary). -/
def GetFilterBitsReaderAtCeiling (v : Nat) (contents : List Nat) :
    Except DecodeError FilterBitsReader :=
  match readMarker contents with
  | none => .error .unrecognizedMarker
  | some m =>
    match Encoding.ofMarker m with
    | none => .error .unrecognizedMarker
    | some e =>
      if e.minFormatVersion ≤ v then .ok ⟨e, contents⟩
      else .error .unrecognizedMarker

/-- Modelled from the spec: the encoding automatic mode selects under a
format-version ceiling: the newest encoding decodable at that ceiling,
falling back to the conservative legacy encoding, never the deprecated
block-scoped one (§4.5 step 2; header lines 79-82). -/
def autoSelect (format_version : Nat) : Encoding :=
  if Encoding.fastLocalBloom.minFormatVersion ≤ format_version then
    .fastLocalBloom
  else
    .legacyBloom

/-- Modelled from the spec: `BloomFilterPolicy::GetFilterBitsBuilderInternal`
(header lines 114-120): a pinned mode instantiates its encoding's builder
unconditionally; automatic mode selects by the context's format version
(§4.5 steps 1-2). -/
def BloomFilterPolicy.GetFilterBitsBuilderInternal (p : BloomFilterPolicy)
    (context : FilterBuildingContext) : Option FilterBitsBuilder :=
  match p.mode with
  | .kLegacyBloom => some ⟨.legacyBloom, p.bits_per_key⟩
  | .kDeprecatedBlock => some ⟨.deprecatedBlock, p.bits_per_key⟩
  | .kFastLocalBloom => some ⟨.fastLocalBloom, p.bits_per_key⟩
  | .kAuto =>
    some ⟨autoSelect context.table_options.format_version, p.bits_per_key⟩

/-- Direct translation of `FilterBuildingContext::GetBuilder` (header lines
39-45): null when the table options carry no filter policy, otherwise the
policy's `GetFilterBitsBuilderInternal` applied to this context. -/
def FilterBuildingContext.GetBuilder (ctx : FilterBuildingContext) :
    Option FilterBitsBuilder :=
  match ctx.table_options.filter_policy with
  | some p => p.GetFilterBitsBuilderInternal ctx
  | none => none

/-! ### Builder lifecycle (modelled from the spec)

The spec's state machine for a builder (§4.2, §4.5 closing paragraph):
`fresh → accumulating → finished`, one-way, no reset. -/

/-- Modelled from the spec: lifecycle states of a builder. -/
inductive BuilderLife where
  | fresh
  | accumulating
  | finished
deriving DecidableEq, Repr

/-- Operations invoked on a builder. -/
inductive BuilderOp where
  | addKey (k : Key)
  | finish
deriving DecidableEq, Repr

/-- Modelled from the spec: the legal transitions of the builder lifecycle:
`AddKey` while not finished, `Finish` exactly once, nothing after. -/
inductive BuilderStep : BuilderLife → BuilderOp → BuilderLife → Prop where
  | addFresh (k : Key) : BuilderStep .fresh (.addKey k) .accumulating
  | addAccumulating (k : Key) :
      BuilderStep .accumulating (.addKey k) .accumulating
  | finishFresh : BuilderStep .fresh .finish .finished
  | finishAccumulating : BuilderStep .accumulating .finish .finished

/-- Reflexive-transitive closure of `BuilderStep` along a list of
operations. -/
inductive BuilderTrace : BuilderLife → List BuilderOp → BuilderLife → Prop
    where
  | nil (s : BuilderLife) : BuilderTrace s [] s
  | cons {s t u : BuilderLife} {op : BuilderOp} {ops : List BuilderOp} :
      BuilderStep s op t → BuilderTrace t ops u →
      BuilderTrace s (op :: ops) u

/-- Counts the `finish` operations in a trace. -/
def countFinish (ops : List BuilderOp) : Nat :=
  ops.countP fun op =>
    match op with
    | .finish => true
    | _ => false

/-! ### Helper lemmas on the bit-array core -/

theorem getD_set_self (l : List Nat) (i v : Nat) (h : i < l.length) :
    (l.set i v).getD i 0 = v := by
  rw [List.getD_eq_getElem _ _ (by simpa using h)]
  simp

theorem getD_set_ne (l : List Nat) (i j v : Nat) (h : i ≠ j) :
    (l.set i v).getD j 0 = l.getD j 0 := by
  simp [List.getD, List.getElem?_set_ne h]

theorem length_setBitInBytes (bytes : List Nat) (pos : Nat) :
    (setBitInBytes bytes pos).length = bytes.length :=
  List.length_set ..

theorem getBit_setBit_self (bytes : List Nat) (pos : Nat)
    (h : pos / 8 < bytes.length) :
    getBitInBytes (setBitInBytes bytes pos) pos = true := by
  unfold getBitInBytes setBitInBytes
  rw [getD_set_self _ _ _ h]
  simp [Nat.testBit_or, Nat.one_shiftLeft, Nat.testBit_two_pow_self]

theorem getBit_setBit_mono (bytes : List Nat) (p q : Nat)
    (h : getBitInBytes bytes q = true) :
    getBitInBytes (setBitInBytes bytes p) q = true := by
  unfold getBitInBytes at h ⊢
  unfold setBitInBytes
  by_cases hq : q / 8 < bytes.length
  · by_cases hpq : p / 8 = q / 8
    · rw [hpq, getD_set_self _ _ _ hq]
      rw [Nat.testBit_or, h, Bool.true_or]
    · rw [getD_set_ne _ _ _ _ hpq]
      exact h
  · rw [List.getD_eq_default _ _ (le_of_not_lt hq)] at h
    simp [Nat.zero_testBit] at h

theorem foldl_preserves {α β : Type} (P : β → Prop) (f : β → α → β)
    (h : ∀ b a, P b → P (f b a)) :
    ∀ (l : List α) (b : β), P b → P (l.foldl f b)
  | [], _, hb => hb
  | a :: l, b, hb => foldl_preserves P f h l (f b a) (h b a hb)

theorem length_addKeyBits (seed np nb : Nat) (k : Key) (bs : List Nat) :
    (addKeyBits seed np nb k bs).length = bs.length := by
  unfold addKeyBits
  exact foldl_preserves (fun b => b.length = bs.length) _
    (fun b i hb => (length_setBitInBytes b _).trans hb) _ bs rfl

theorem length_buildBits (seed np nb : Nat) (keys : List Key)
    (bs : List Nat) :
    (buildBits seed np nb keys bs).length = bs.length := by
  unfold buildBits
  exact foldl_preserves (fun b => b.length = bs.length) _
    (fun b k hb => (length_addKeyBits seed np nb k b).trans hb) _ bs rfl

theorem getBit_addKeyBits_mono (seed np nb : Nat) (k : Key) (bs : List Nat)
    (q : Nat) (h : getBitInBytes bs q = true) :
    getBitInBytes (addKeyBits seed np nb k bs) q = true := by
  unfold addKeyBits
  exact foldl_preserves (fun b => getBitInBytes b q = true) _
    (fun b i hb => getBit_setBit_mono b _ q hb) _ bs h

theorem getBit_buildBits_mono (seed np nb : Nat) (keys : List Key)
    (bs : List Nat) (q : Nat) (h : getBitInBytes bs q = true) :
    getBitInBytes (buildBits seed np nb keys bs) q = true := by
  unfold buildBits
  exact foldl_preserves (fun b => getBitInBytes b q = true) _
    (fun b k hb => getBit_addKeyBits_mono seed np nb k b q hb) _ bs h

theorem probePos_div_lt (seed : Nat) (k : Key) (i nb L : Nat)
    (hnb : nb = 8 * L) (hL : 0 < L) :
    probePos seed k i nb / 8 < L := by
  have hlt : probePos seed k i nb < nb := by
    unfold probePos
    exact Nat.mod_lt _ (by omega)
  omega

theorem foldl_setProbe_mem (seed nb L : Nat) (k : Key) (i : Nat)
    (hL : 0 < L) (hnb : nb = 8 * L) :
    ∀ (l : List Nat) (bs : List Nat), bs.length = L → i ∈ l →
      getBitInBytes
        (l.foldl (fun b j => setBitInBytes b (probePos seed k j nb)) bs)
        (probePos seed k i nb) = true := by
  intro l
  induction l with
  | nil => intro bs _ hmem; exact absurd hmem (List.not_mem_nil i)
  | cons a l ih =>
    intro bs hbs hmem
    rcases List.mem_cons.mp hmem with heq | hmem
    · subst heq
      simp only [List.foldl_cons]
      exact foldl_preserves
        (fun b => getBitInBytes b (probePos seed k i nb) = true) _
        (fun b j hb => getBit_setBit_mono b _ _ hb) l _
        (getBit_setBit_self bs _ (hbs ▸ probePos_div_lt seed k i nb L hnb hL))
    · simp only [List.foldl_cons]
      exact ih _ ((length_setBitInBytes bs _).trans hbs) hmem

theorem getBit_addKeyBits_self (seed np nb L : Nat) (k : Key) (i : Nat)
    (hi : i < np) (bs : List Nat) (hbs : bs.length = L) (hL : 0 < L)
    (hnb : nb = 8 * L) :
    getBitInBytes (addKeyBits seed np nb k bs) (probePos seed k i nb) =
      true := by
  unfold addKeyBits
  exact foldl_setProbe_mem seed nb L k i hL hnb _ bs hbs
    (List.mem_range.mpr hi)

theorem getBit_buildBits_self (seed np nb L : Nat) (keys : List Key)
    (k : Key) (hk : k ∈ keys) (i : Nat) (hi : i < np) :
    ∀ (bs : List Nat), bs.length = L → 0 < L → nb = 8 * L →
      getBitInBytes (buildBits seed np nb keys bs)
        (probePos seed k i nb) = true := by
  induction keys with
  | nil => exact absurd hk (List.not_mem_nil k)
  | cons a keys ih =>
    intro bs hbs hL hnb
    rcases List.mem_cons.mp hk with heq | hmem
    · subst heq
      unfold buildBits
      simp only [List.foldl_cons]
      exact getBit_buildBits_mono seed np nb keys _ _
        (getBit_addKeyBits_self seed np nb L k i hi bs hbs hL hnb)
    · unfold buildBits
      simp only [List.foldl_cons]
      exact ih hmem _ ((length_addKeyBits seed np nb a bs).trans hbs) hL hnb

/-! ### Marker and blob-structure lemmas -/

theorem ofMarker_marker (e : Encoding) :
    Encoding.ofMarker e.marker = some e := by
  cases e <;> rfl

theorem ofMarker_eq_some_iff (m : Nat) (e : Encoding) :
    Encoding.ofMarker m = some e ↔ m = e.marker := by
  unfold Encoding.ofMarker
  split_ifs with h1 h2 h3 <;> cases e <;> simp_all [Encoding.marker]

theorem ofMarker_eq_none_iff (m : Nat) :
    Encoding.ofMarker m = none ↔ ∀ e : Encoding, m ≠ e.marker := by
  constructor
  · intro h e he
    subst he
    rw [ofMarker_marker] at h
    cases h
  · intro h
    unfold Encoding.ofMarker
    split_ifs with h1 h2 h3
    · exact absurd h1 (h .legacyBloom)
    · exact absurd h2 (h .deprecatedBlock)
    · exact absurd h3 (h .fastLocalBloom)
    · rfl

theorem filterByteLen_pos (bits_per_key n : Nat) :
    0 < filterByteLen bits_per_key n := by
  unfold filterByteLen
  omega

theorem bits_length_Finish (b : FilterBitsBuilder) (keys : List Key) :
    (buildBits b.encoding.seed (numProbesFor b.bits_per_key)
      (8 * filterByteLen b.bits_per_key keys.length) keys
      (List.replicate (filterByteLen b.bits_per_key keys.length) 0)).length =
    filterByteLen b.bits_per_key keys.length := by
  rw [length_buildBits, List.length_replicate]

theorem length_Finish (b : FilterBitsBuilder) (keys : List Key) :
    (b.Finish keys).length =
      filterByteLen b.bits_per_key keys.length + metadataLen := by
  unfold FilterBitsBuilder.Finish
  rw [List.length_append, bits_length_Finish]
  rfl

theorem readMarker_Finish (b : FilterBitsBuilder) (keys : List Key) :
    readMarker (b.Finish keys) = some b.encoding.marker := by
  unfold FilterBitsBuilder.Finish readMarker
  rw [List.getLast?_append]
  rfl

theorem GetFilterBitsReader_Finish (read : BloomFilterPolicy)
    (b : FilterBitsBuilder) (keys : List Key) :
    read.GetFilterBitsReader (b.Finish keys) =
      .ok ⟨b.encoding, b.Finish keys⟩ := by
  unfold BloomFilterPolicy.GetFilterBitsReader
  rw [readMarker_Finish]
  simp [ofMarker_marker]

theorem getD_append_pair (l : List Nat) (a c : Nat) :
    (l ++ [a, c]).getD l.length 0 = a := by
  rw [List.getD_eq_getElem _ _ (by simp)]
  rw [List.getElem_append_right (le_refl _)]
  simp

theorem take_length_append_pair (l : List Nat) (a c : Nat) :
    (l ++ [a, c]).take l.length = l := by
  simp

theorem MayMatch_append_pair (e : Encoding) (bits : List Nat) (np c : Nat)
    (k : Key)
    (h : ∀ i, i < np →
      getBitInBytes bits (probePos e.seed k i (8 * bits.length)) = true) :
    FilterBitsReader.MayMatch ⟨e, bits ++ [np, c]⟩ k = true := by
  show (List.range
      ((bits ++ [np, c]).getD ((bits ++ [np, c]).length - metadataLen) 0)).all
      (fun i =>
        getBitInBytes ((bits ++ [np, c]).take
          ((bits ++ [np, c]).length - metadataLen))
          (probePos e.seed k i
            (8 * ((bits ++ [np, c]).length - metadataLen)))) = true
  have hsub : (bits ++ [np, c]).length - metadataLen = bits.length := by
    simp [metadataLen]
  rw [hsub, getD_append_pair, take_length_append_pair]
  refine List.all_eq_true.mpr ?_
  intro i hi
  exact h i (List.mem_range.mp hi)

theorem MayMatch_Finish (b : FilterBitsBuilder) (keys : List Key) (k : Key)
    (hk : k ∈ keys) :
    FilterBitsReader.MayMatch ⟨b.encoding, b.Finish keys⟩ k = true := by
  unfold FilterBitsBuilder.Finish
  apply MayMatch_append_pair
  intro i hi
  rw [bits_length_Finish]
  exact getBit_buildBits_self b.encoding.seed (numProbesFor b.bits_per_key)
    (8 * filterByteLen b.bits_per_key keys.length)
    (filterByteLen b.bits_per_key keys.length) keys k hk i hi _
    (List.length_replicate ..) (filterByteLen_pos ..) rfl

theorem minFormatVersion_autoSelect_le (v : Nat) :
    (autoSelect v).minFormatVersion ≤ v := by
  unfold autoSelect
  split_ifs with h
  · exact h
  · exact Nat.zero_le v

theorem GetFilterBitsReaderAtCeiling_Finish (v : Nat)
    (b : FilterBitsBuilder) (keys : List Key)
    (hv : b.encoding.minFormatVersion ≤ v) :
    GetFilterBitsReaderAtCeiling v (b.Finish keys) =
      .ok ⟨b.encoding, b.Finish keys⟩ := by
  unfold GetFilterBitsReaderAtCeiling
  rw [readMarker_Finish]
  simp [ofMarker_marker, hv]

theorem GetFilterBitsReader_marker_none (read : BloomFilterPolicy)
    (contents : List Nat) (hm : readMarker contents = none) :
    read.GetFilterBitsReader contents = .error .unrecognizedMarker := by
  unfold BloomFilterPolicy.GetFilterBitsReader
  rw [hm]

theorem GetFilterBitsReader_marker_some (read : BloomFilterPolicy)
    (contents : List Nat) (m : Nat) (hm : readMarker contents = some m) :
    read.GetFilterBitsReader contents =
      match Encoding.ofMarker m with
      | none => .error .unrecognizedMarker
      | some e => .ok ⟨e, contents⟩ := by
  unfold BloomFilterPolicy.GetFilterBitsReader
  rw [hm]

theorem no_step_from_finished (op : BuilderOp) (s : BuilderLife) :
    ¬ BuilderStep .finished op s := by
  intro h
  cases h

theorem trace_countFinish {s : BuilderLife} {ops : List BuilderOp}
    {s2 : BuilderLife} (h : BuilderTrace s ops s2) :
    countFinish ops ≤ 1 ∧ (s = .finished → ops = []) := by
  induction h with
  | nil s => exact ⟨by simp [countFinish], fun _ => rfl⟩
  | cons hstep htrace ih =>
    cases hstep with
    | addFresh k =>
      refine ⟨?_, fun hc => nomatch hc⟩
      simpa [countFinish, List.countP_cons] using ih.1
    | addAccumulating k =>
      refine ⟨?_, fun hc => nomatch hc⟩
      simpa [countFinish, List.countP_cons] using ih.1
    | finishFresh =>
      have hops := ih.2 rfl
      subst hops
      exact ⟨by simp [countFinish, List.countP_cons], fun hc => nomatch hc⟩
    | finishAccumulating =>
      have hops := ih.2 rfl
      subst hops
      exact ⟨by simp [countFinish, List.countP_cons], fun hc => nomatch hc⟩

/-! ### The claims -/

/-- C1: for every finite set of keys fed to a builder obtained from the
policy (any mode, any concrete encoding), after `Finish()` produces a byte
blob, the reader obtained via `GetFilterBitsReader` over that blob (under any
reading policy) returns true from `MayMatch(k)` for every key fed — zero
false negatives. -/
theorem zero_false_negatives (build read : BloomFilterPolicy)
    (ctx : FilterBuildingContext) (b : FilterBitsBuilder)
    (_hb : build.GetFilterBitsBuilderInternal ctx = some b)
    (keys : List Key) (k : Key) (hk : k ∈ keys) :
    ∃ r, read.GetFilterBitsReader (b.Finish keys) = .ok r ∧
      r.MayMatch k = true :=
  ⟨⟨b.encoding, b.Finish keys⟩, GetFilterBitsReader_Finish read b keys,
    MayMatch_Finish b keys k hk⟩

/-- Witness for C1: keys "a", "b", "c" under the automatic mode at format
version 6; key "a" may match. -/
theorem zero_false_negatives_witness :
    ∃ r, (⟨10, Mode.kAuto⟩ : BloomFilterPolicy).GetFilterBitsReader
        ((⟨Encoding.fastLocalBloom, 10⟩ : FilterBitsBuilder).Finish
          [[97], [98], [99]]) = .ok r ∧ r.MayMatch [97] = true :=
  zero_false_negatives ⟨10, Mode.kAuto⟩ ⟨10, Mode.kAuto⟩
    ⟨⟨some ⟨10, Mode.kAuto⟩, 6⟩⟩ ⟨Encoding.fastLocalBloom, 10⟩ (by decide)
    [[97], [98], [99]] [97] (by decide)

/-- C2: bytes produced by any concrete encoding's builder, passed to
`GetFilterBitsReader` of a policy in any mode, yield a reader carrying
exactly that encoding — dispatch is driven by the marker in the bytes, not
by the reading policy's mode. -/
theorem marker_round_trip (e : Encoding) (bits_per_key : Nat)
    (keys : List Key) (read : BloomFilterPolicy) :
    ∃ r, read.GetFilterBitsReader
        ((⟨e, bits_per_key⟩ : FilterBitsBuilder).Finish keys) = .ok r ∧
      r.encoding = e :=
  ⟨⟨e, (⟨e, bits_per_key⟩ : FilterBitsBuilder).Finish keys⟩,
    GetFilterBitsReader_Finish read ⟨e, bits_per_key⟩ keys, rfl⟩

/-- C3: `GetFilterBitsReader` reports a decode error if and only if the
marker embedded in the bytes is recognized by no known encoding, and
whenever it returns a reader that reader's encoding is the one named by the
embedded marker — an unrecognized marker never silently yields a reader. -/
theorem decode_error_iff_unrecognized (read : BloomFilterPolicy)
    (contents : List Nat) :
    (read.GetFilterBitsReader contents = .error .unrecognizedMarker ↔
      ∀ e : Encoding, readMarker contents ≠ some e.marker) ∧
    ∀ r, read.GetFilterBitsReader contents = .ok r →
      readMarker contents = some r.encoding.marker := by
  cases hm : readMarker contents with
  | none =>
    have hr := GetFilterBitsReader_marker_none read contents hm
    refine ⟨⟨fun _ e hem => ?_, fun _ => hr⟩, fun r h => ?_⟩
    · exact nomatch hem
    · rw [hr] at h
      exact nomatch h
  | some m =>
    have hr := GetFilterBitsReader_marker_some read contents m hm
    cases he : Encoding.ofMarker m with
    | none =>
      have hr2 : read.GetFilterBitsReader contents =
          .error .unrecognizedMarker := by
        rw [hr, he]
      have hne := (ofMarker_eq_none_iff m).mp he
      refine ⟨⟨fun _ e hem => ?_, fun _ => hr2⟩, fun r h => ?_⟩
      · exact hne e (Option.some.inj hem)
      · rw [hr2] at h
        exact nomatch h
    | some e =>
      have hr2 : read.GetFilterBitsReader contents = .ok ⟨e, contents⟩ := by
        rw [hr, he]
      have hme : m = e.marker := (ofMarker_eq_some_iff m e).mp he
      refine ⟨⟨fun h => ?_, fun hall => ((hall e) (by rw [hme])).elim⟩,
        fun r h => ?_⟩
      · rw [hr2] at h
        exact nomatch h
      · rw [hr2] at h
        cases h
        exact congrArg some hme

/-- Witness for C3: the byte blob `[99]` carries an unknown marker and is
rejected with a decode error. -/
theorem decode_error_iff_unrecognized_witness :
    (⟨10, Mode.kAuto⟩ : BloomFilterPolicy).GetFilterBitsReader [99] =
      .error .unrecognizedMarker :=
  (decode_error_iff_unrecognized ⟨10, Mode.kAuto⟩ [99]).1.mpr
    (fun e => by cases e <;> decide)

/-- C4: under automatic mode, the builder returned for any build context is
never the deprecated block-scoped encoding's builder. -/
theorem auto_never_deprecated (bits_per_key : Nat)
    (ctx : FilterBuildingContext) (b : FilterBitsBuilder)
    (hb : BloomFilterPolicy.GetFilterBitsBuilderInternal
      ⟨bits_per_key, .kAuto⟩ ctx = some b) :
    b.encoding ≠ .deprecatedBlock := by
  have hb2 : b = ⟨autoSelect ctx.table_options.format_version,
      bits_per_key⟩ :=
    (Option.some.inj hb).symm
  subst hb2
  intro hcontra
  unfold autoSelect at hcontra
  split_ifs at hcontra

/-- Witness for C4: at format version 6, automatic mode yields the fast
cache-local builder, which is not the deprecated encoding. -/
theorem auto_never_deprecated_witness :
    (⟨Encoding.fastLocalBloom, 10⟩ : FilterBitsBuilder).encoding ≠
      Encoding.deprecatedBlock :=
  auto_never_deprecated 10 ⟨⟨none, 6⟩⟩ ⟨Encoding.fastLocalBloom, 10⟩
    (by decide)

/-- C5: finishing a builder fed exactly `n` keys yields a blob whose length
does not exceed `CalculateSpace(n)`, metadata included. -/
theorem finish_within_calculate_space (b : FilterBitsBuilder)
    (keys : List Key) :
    (b.Finish keys).length ≤ b.CalculateSpace keys.length := by
  rw [length_Finish]
  unfold FilterBitsBuilder.CalculateSpace
  exact le_refl _

/-- C6: for format-version ceilings `v1 < v2`, bytes built by the encoding
that automatic mode selects at ceiling `v1` decode successfully under a
reader whose ceiling is `v2`. -/
theorem auto_mode_forward_compatible (v1 v2 : Nat) (hlt : v1 < v2)
    (bits_per_key : Nat) (ctx : FilterBuildingContext)
    (hctx : ctx.table_options.format_version = v1) (b : FilterBitsBuilder)
    (hb : BloomFilterPolicy.GetFilterBitsBuilderInternal
      ⟨bits_per_key, .kAuto⟩ ctx = some b) (keys : List Key) :
    ∃ r, GetFilterBitsReaderAtCeiling v2 (b.Finish keys) = .ok r ∧
      r.encoding = b.encoding := by
  have hb2 : b = ⟨autoSelect v1, bits_per_key⟩ := by
    rw [← hctx]
    exact (Option.some.inj hb).symm
  subst hb2
  refine ⟨_, GetFilterBitsReaderAtCeiling_Finish v2 _ keys ?_, rfl⟩
  exact le_trans (minFormatVersion_autoSelect_le v1) hlt.le

/-- Witness for C6: automatic mode at ceiling 4 picks the legacy encoding;
its bytes decode under ceiling 6. -/
theorem auto_mode_forward_compatible_witness :
    ∃ r, GetFilterBitsReaderAtCeiling 6
        ((⟨Encoding.legacyBloom, 10⟩ : FilterBitsBuilder).Finish [[120]]) =
        .ok r ∧
      r.encoding =
        (⟨Encoding.legacyBloom, 10⟩ : FilterBitsBuilder).encoding :=
  auto_mode_forward_compatible 4 6 (by decide) 10 ⟨⟨none, 4⟩⟩ rfl
    ⟨Encoding.legacyBloom, 10⟩ (by decide) [[120]]

/-- C7: the space estimate is monotonically non-decreasing in the entry
count. -/
theorem calculate_space_monotone (b : FilterBitsBuilder) (m n : Nat)
    (h : m ≤ n) : b.CalculateSpace m ≤ b.CalculateSpace n := by
  unfold FilterBitsBuilder.CalculateSpace filterByteLen
  have hdiv : (m * b.bits_per_key + 7) / 8 ≤ (n * b.bits_per_key + 7) / 8 :=
    Nat.div_le_div_right
      (Nat.add_le_add_right (Nat.mul_le_mul_right _ h) 7)
  exact Nat.add_le_add_right (max_le_max (le_refl 1) hdiv) metadataLen

/-- Witness for C7: at 10 bits per key, 3 entries need no more space than
5 entries. -/
theorem calculate_space_monotone_witness :
    (⟨Encoding.fastLocalBloom, 10⟩ : FilterBitsBuilder).CalculateSpace 3 ≤
      (⟨Encoding.fastLocalBloom, 10⟩ : FilterBitsBuilder).CalculateSpace 5 :=
  calculate_space_monotone ⟨Encoding.fastLocalBloom, 10⟩ 3 5 (by decide)

/-- C8: `FilterBuildingContext::GetBuilder` returns a null builder exactly
when the table options carry no filter policy, and otherwise returns exactly
the policy's `GetFilterBitsBuilderInternal` on this context. -/
theorem get_builder_null_or_policy (ctx : FilterBuildingContext) :
    (ctx.table_options.filter_policy = none → ctx.GetBuilder = none) ∧
    ∀ p, ctx.table_options.filter_policy = some p →
      ctx.GetBuilder = p.GetFilterBitsBuilderInternal ctx := by
  constructor
  · intro h
    unfold FilterBuildingContext.GetBuilder
    rw [h]
  · intro p h
    unfold FilterBuildingContext.GetBuilder
    rw [h]

/-- Witness for C8: a context without a policy yields no builder; one with a
policy yields that policy's internal builder result. -/
theorem get_builder_null_or_policy_witness :
    (FilterBuildingContext.mk ⟨none, 6⟩).GetBuilder = none ∧
    (FilterBuildingContext.mk ⟨some ⟨10, Mode.kAuto⟩, 6⟩).GetBuilder =
      BloomFilterPolicy.GetFilterBitsBuilderInternal ⟨10, Mode.kAuto⟩
        ⟨⟨some ⟨10, Mode.kAuto⟩, 6⟩⟩ :=
  ⟨(get_builder_null_or_policy ⟨⟨none, 6⟩⟩).1 rfl,
   (get_builder_null_or_policy ⟨⟨some ⟨10, Mode.kAuto⟩, 6⟩⟩).2 _ rfl⟩

/-- C9: the builder lifecycle is one-way — no operation is permitted from
the finished state, and along any trace starting fresh, `Finish` occurs at
most once. -/
theorem builder_one_way_single_finish :
    (∀ (op : BuilderOp) (s : BuilderLife), ¬ BuilderStep .finished op s) ∧
    ∀ (ops : List BuilderOp) (s : BuilderLife),
      BuilderTrace .fresh ops s → countFinish ops ≤ 1 :=
  ⟨fun _ _ h => (nomatch h), fun _ _ h => (trace_countFinish h).1⟩

/-- Witness for C9: a second `Finish` from the finished state is not a legal
step, and the trace consisting of one `Finish` finishes once. -/
theorem builder_one_way_single_finish_witness :
    ¬ BuilderStep .finished .finish .finished ∧
      countFinish [BuilderOp.finish] ≤ 1 :=
  ⟨builder_one_way_single_finish.1 .finish .finished,
   builder_one_way_single_finish.2 [BuilderOp.finish] .finished
     (.cons .finishFresh (.nil _))⟩

/-- C10: feeding `CalculateSpace(n)` back through `CalculateNumEntry`
returns at least `n`. -/
theorem calculate_num_entry_ge (b : FilterBitsBuilder) (n : Nat)
    (h : 0 < b.bits_per_key) :
    n ≤ b.CalculateNumEntry (b.CalculateSpace n) := by
  unfold FilterBitsBuilder.CalculateNumEntry FilterBitsBuilder.CalculateSpace
    filterByteLen metadataLen
  rw [Nat.add_sub_cancel, Nat.le_div_iff_mul_le h]
  calc n * b.bits_per_key
      ≤ ((n * b.bits_per_key + 7) / 8) * 8 := by omega
    _ ≤ max 1 ((n * b.bits_per_key + 7) / 8) * 8 :=
        Nat.mul_le_mul_right 8 (le_max_right 1 _)

/-- Witness for C10: at 10 bits per key, the space estimated for 5 entries
round-trips to at least 5 entries. -/
theorem calculate_num_entry_ge_witness :
    5 ≤ (⟨Encoding.legacyBloom, 10⟩ : FilterBitsBuilder).CalculateNumEntry
      ((⟨Encoding.legacyBloom, 10⟩ : FilterBitsBuilder).CalculateSpace 5) :=
  calculate_num_entry_ge ⟨Encoding.legacyBloom, 10⟩ 5 (by decide)

end rocksdb
